import Mathlib

/-!
Verification development for the concordance cache / calculation-status
coordinator of the kontext repository.

Shallow embedding conventions:
* Time is modelled in tenths of the source's seconds (deciseconds), so the
  source's 0.1-second sleep granularity becomes the integer 1.  All constants
  are scaled accordingly: the wait budgets 5 s / 30 s become 50 / 300, and the
  default task time limit 300 s becomes 3000.
* The per-corpus cache map (an `AbstractConcCache` implementation, whose
  concrete storage lives outside this source tree) is modelled from the spec
  and the abstract interface's docstrings as an association list from
  `(subchash, query-prefix)` keys to `CalcStatus` records, plus a set of
  existing cache files and a clock; see `CacheState` below.
* Fallible code returns `Except (String × CacheState) _`: a raised exception
  carries its message together with the state at the moment of the raise
  (Python mutations performed before a raise survive it).
* The dynamically typed values passed to `CalcStatus.update(**kw)` are
  modelled by `PyVal`; each attribute stores the type it is declared with in
  `CalcStatus.__init__` (every call site in the source passes values of those
  types).  `arf` (a float in the source) is modelled as an integer; no claim
  inspects arithmetic on `arf`.
-/

/-- Status record for one (subchash, query-prefix) cache entry, after
`CalcStatus.__init__` in plugins/abstract/conc_cache.py.  `pid` (diagnostic
only) is modelled as a plain integer; `concsize`/`fullsize`/`relconcsize`
are `Option Int` because the source allows `None` for them, and Python
truthiness of the stored value matters in `has_some_result`. -/
structure CalcStatus where
  task_id : Option String := none
  pid : Int := 1
  created : Int := 0
  last_upd : Int := 0
  concsize : Option Int := some 0
  fullsize : Option Int := some 0
  relconcsize : Option Int := some 0
  arf : Option Int := some 0
  error : Option String := none
  finished : Bool := false
deriving DecidableEq

/-- Python truthiness of an optional integer: `None` and `0` are falsy. -/
def truthyOptInt : Option Int → Bool
  | none => false
  | some n => n != 0

/-- CalcStatus.has_some_result: `minsize == -1 and self.finished or
self.concsize and self.concsize >= minsize`.  The short-circuiting `and`
guards the `>=` comparison behind the truthiness of `concsize`. -/
def CalcStatus.has_some_result (s : CalcStatus) (minsize : Int) : Bool :=
  (minsize == -1 && s.finished) || (truthyOptInt s.concsize && s.concsize.getD 0 ≥ minsize)

/-- CalcStatus.test_error: an error message if `error` is set, or a
stall message if the record is unfinished and `now - last_upd` exceeds
`time_limit`; `none` otherwise. -/
def CalcStatus.test_error (s : CalcStatus) (now : Int) (time_limit : Int) : Option String :=
  match s.error with
  | some e => some e
  | none =>
    if ¬ s.finished ∧ now - s.last_upd > time_limit then
      some "Wait limit for initial data exceeded"
    else
      none

/-- Dynamically typed Python value, as passed to `update(**kw)`. -/
inductive PyVal where
  | vint (n : Int)
  | vstr (s : String)
  | vbool (b : Bool)
  | vnone
  | vexc (msg : String)
deriving DecidableEq

/-- The normalisation `str(v) if isinstance(v, BaseException) else v`
performed by `CalcStatus.update` on each value. -/
def normVal : PyVal → PyVal
  | .vexc m => .vstr m
  | v => v

/-- The attribute names a CalcStatus instance has (exactly the ones set in
`__init__`); `hasattr(self, k)` is membership here. -/
def attrNames : List String :=
  ["task_id", "pid", "created", "last_upd", "concsize", "fullsize",
   "relconcsize", "arf", "error", "finished"]

def asOptStr : PyVal → Option String
  | .vstr s => some s
  | _ => none

def asOptInt : PyVal → Option Int
  | .vint n => some n
  | _ => none

def asInt (d : Int) : PyVal → Int
  | .vint n => n
  | _ => d

def asBool : PyVal → Bool
  | .vbool b => b
  | _ => false

/-- `setattr(self, k, v)` for the attributes of CalcStatus.  The fallthrough
branch (unknown name) is unreachable from `update`, which checks `hasattr`
first. -/
def setAttr (s : CalcStatus) (k : String) (v : PyVal) : CalcStatus :=
  if k = "task_id" then { s with task_id := asOptStr v }
  else if k = "pid" then { s with pid := asInt s.pid v }
  else if k = "created" then { s with created := asInt s.created v }
  else if k = "last_upd" then { s with last_upd := asInt s.last_upd v }
  else if k = "concsize" then { s with concsize := asOptInt v }
  else if k = "fullsize" then { s with fullsize := asOptInt v }
  else if k = "relconcsize" then { s with relconcsize := asOptInt v }
  else if k = "arf" then { s with arf := asOptInt v }
  else if k = "error" then { s with error := asOptStr v }
  else if k = "finished" then { s with finished := asBool v }
  else s

/-- CalcStatus.update: iterate over the keyword arguments; for a known name,
set the (exception-normalised) value; for an unknown name raise an
AssertionError.  Only after the whole loop succeeds is `last_upd` refreshed
to the current time.  A raised error carries the partially mutated record
(Python mutates `self` in place, so updates applied before the failing key
survive the raise). -/
def CalcStatus.update (s : CalcStatus) (kw : List (String × PyVal)) (now : Int) :
    Except (String × CalcStatus) CalcStatus :=
  match kw with
  | [] => .ok { s with last_upd := now }
  | (k, v) :: rest =>
    if k ∈ attrNames then
      CalcStatus.update (setAttr s k (normVal v)) rest now
    else
      .error ("Unknown CalcStatus attribute: " ++ k, s)

/-- Total wrapper around `CalcStatus.update` used where the source's call
sites pass only known attribute names (so the error branch is unreachable
there). -/
def CalcStatus.updOk (s : CalcStatus) (kw : List (String × PyVal)) (now : Int) : CalcStatus :=
  match CalcStatus.update s kw now with
  | .ok s' => s'
  | .error (_, s') => s'

theorem update_ok_last_upd (s : CalcStatus) (kw : List (String × PyVal)) (now : Int)
    (s' : CalcStatus) (h : CalcStatus.update s kw now = .ok s') : s'.last_upd = now := by
  induction kw generalizing s with
  | nil =>
    simp only [CalcStatus.update] at h
    cases h
    rfl
  | cons p rest ih =>
    obtain ⟨k, v⟩ := p
    simp only [CalcStatus.update] at h
    by_cases hk : k ∈ attrNames
    · rw [if_pos hk] at h
      exact ih _ h
    · rw [if_neg hk] at h
      cases h

theorem update_ok_iff_known (s : CalcStatus) (kw : List (String × PyVal)) (now : Int) :
    (∃ s', CalcStatus.update s kw now = .ok s') ↔ ∀ p ∈ kw, p.1 ∈ attrNames := by
  induction kw generalizing s with
  | nil =>
    simp [CalcStatus.update]
  | cons p rest ih =>
    obtain ⟨k, v⟩ := p
    constructor
    · rintro ⟨s', hs'⟩
      simp only [CalcStatus.update] at hs'
      by_cases hk : k ∈ attrNames
      · rw [if_pos hk] at hs'
        intro p hp
        rcases List.mem_cons.1 hp with h | h
        · subst h; exact hk
        · exact ((ih _).1 ⟨s', hs'⟩) p h
      · rw [if_neg hk] at hs'
        cases hs'
    · intro hall
      have hk : k ∈ attrNames := hall (k, v) (List.mem_cons_self _ _)
      have hrest : ∀ p ∈ rest, p.1 ∈ attrNames := fun p hp => hall p (List.mem_cons_of_mem _ hp)
      obtain ⟨s', hs'⟩ := (ih (setAttr s k (normVal v))).2 hrest
      exact ⟨s', by simp only [CalcStatus.update]; rw [if_pos hk]; exact hs'⟩

/-- C4 counterexample: a freshly initialised record (all defaults, in
particular `concsize = 0`) is an existing CalcStatus record for which
`has_some_result(0)` is false — `0` is falsy, so the claim that minsize 0
accepts any existing record regardless of its concsize fails. -/
theorem has_some_result_zero_cex :
    ({} : CalcStatus).has_some_result 0 = false := by decide

/-- C4 (amended): `has_some_result(0)` holds iff `concsize` is non-null and
truthy and at least 0 — i.e. iff `concsize` is a positive integer.  A record
whose `concsize` is `None`, `0` (the default) or negative is rejected even at
minsize 0. -/
theorem has_some_result_zero_iff_positive_concsize (s : CalcStatus) :
    s.has_some_result 0 = true ↔ ∃ n, s.concsize = some n ∧ 0 < n := by
  cases hc : s.concsize with
  | none =>
    simp [CalcStatus.has_some_result, truthyOptInt, hc]
  | some n =>
    simp only [CalcStatus.has_some_result, truthyOptInt, hc, Option.getD_some]
    constructor
    · intro h
      simp only [Bool.or_eq_true, Bool.and_eq_true, beq_iff_eq, bne_iff_ne, ne_eq,
        decide_eq_true_eq] at h
      rcases h with ⟨h1, _⟩ | ⟨h1, h2⟩
      · omega
      · exact ⟨n, rfl, lt_of_le_of_ne h2 (fun hh => h1 hh.symm)⟩
    · rintro ⟨m, hm, hpos⟩
      cases hm
      simp only [Bool.or_eq_true, Bool.and_eq_true, bne_iff_ne, ne_eq, decide_eq_true_eq]
      right
      exact ⟨by omega, by omega⟩

def c9ex : CalcStatus := { last_upd := 5, finished := false }

/-- C9 counterexample: the claim says every `update` call, including a
failing one, refreshes `last_upd`.  In the source the AssertionError is
raised inside the attribute loop, before the `last_upd = int(time.time())`
line, so a call with an unknown attribute name leaves `last_upd` untouched:
here the record still carries `last_upd = 5` although the current time is
`10`. -/
theorem calcStatus_update_failing_no_refresh_cex :
    CalcStatus.update c9ex [("bogus", PyVal.vint 1)] 10 =
      .error ("Unknown CalcStatus attribute: bogus", c9ex) ∧ c9ex.last_upd = 5 := by
  constructor
  · rfl
  · rfl

/-- C9 (amended): `s.update(**kw)` fails with an unknown-attribute error iff
`kw` contains a name that is not an attribute of `s`; a *successful* call
refreshes `last_upd` to the current time (a failing call raises before the
refresh); in particular `s.update(finished=True)` succeeds, sets `finished`,
and — the clock being monotone — leaves `last_upd` at a value `≥` its value
before the call. -/
theorem calcStatus_update_semantics (s : CalcStatus) (kw : List (String × PyVal)) (now : Int) :
    ((∃ s', CalcStatus.update s kw now = .ok s') ↔ ∀ p ∈ kw, p.1 ∈ attrNames) ∧
    (∀ s', CalcStatus.update s kw now = .ok s' → s'.last_upd = now) ∧
    (∀ s', CalcStatus.update s [("finished", PyVal.vbool true)] now = .ok s' →
      s'.finished = true ∧ (s.last_upd ≤ now → s.last_upd ≤ s'.last_upd)) := by
  refine ⟨update_ok_iff_known s kw now, fun s' h => update_ok_last_upd s kw now s' h, ?_⟩
  intro s' h
  simp only [CalcStatus.update, attrNames] at h
  norm_num at h
  rw [← h]
  constructor
  · simp [setAttr, normVal, asBool]
  · intro hle
    exact hle

/-- C9 witness: the amended theorem applied at a concrete record, keyword
list and time. -/
theorem calcStatus_update_semantics_witness :
    (∃ s', CalcStatus.update c9ex [("finished", PyVal.vbool true)] 10 = .ok s') ∧
    (∀ s', CalcStatus.update c9ex [("finished", PyVal.vbool true)] 10 = .ok s' →
      s'.finished = true ∧ (c9ex.last_upd ≤ 10 → c9ex.last_upd ≤ s'.last_upd)) := by
  refine ⟨?_, fun s' h => (calcStatus_update_semantics c9ex [] 10).2.2 s' h⟩
  exact (calcStatus_update_semantics c9ex [("finished", PyVal.vbool true)] 10).1.2
    (by decide)

/-! ### Cache map state

Modelled from the spec: the concrete `AbstractConcCache` implementation is
not part of this source tree; the model below follows §4.2 of the spec and
the abstract interface's docstrings in plugins/abstract/conc_cache.py:
an index from `(subchash, query-prefix)` to a `CalcStatus` plus a cache-file
path, `del_entry` removing the exact key, `del_full_entry` removing every
entry sharing the base query, and `update_calc_status` applying a
`CalcStatus.update`-style patch, creating the record if absent.  The file
system is a set of existing paths, and the clock advances only on sleeps. -/

/-- A cache-map key: subcorpus hash (None = whole corpus) and query prefix. -/
def CKey : Type := Option String × List String

instance : DecidableEq CKey := by
  unfold CKey
  infer_instance

def lookupEntry : List (CKey × CalcStatus) → CKey → Option CalcStatus
  | [], _ => none
  | e :: rest, k => if e.1 = k then some e.2 else lookupEntry rest k

def removeEntry : List (CKey × CalcStatus) → CKey → List (CKey × CalcStatus)
  | [], _ => []
  | e :: rest, k => if e.1 = k then removeEntry rest k else e :: removeEntry rest k

def upsertEntry (es : List (CKey × CalcStatus)) (k : CKey) (v : CalcStatus) :
    List (CKey × CalcStatus) :=
  (k, v) :: removeEntry es k

/-- Entries removed by `del_full_entry`: every entry with the same subchash
whose query shares the base operation (its first element) with `q`. -/
def delFullEntries : List (CKey × CalcStatus) → Option String → List String →
    List (CKey × CalcStatus)
  | [], _, _ => []
  | e :: rest, sh, q =>
    if e.1.1 = sh ∧ e.1.2.take 1 = q.take 1 then delFullEntries rest sh q
    else e :: delFullEntries rest sh q

theorem lookup_upsert_self (es : List (CKey × CalcStatus)) (k : CKey) (v : CalcStatus) :
    lookupEntry (upsertEntry es k v) k = some v := by
  simp [upsertEntry, lookupEntry]

theorem lookup_remove_other (es : List (CKey × CalcStatus)) (k k' : CKey) (h : k' ≠ k) :
    lookupEntry (removeEntry es k) k' = lookupEntry es k' := by
  induction es with
  | nil => rfl
  | cons e rest ih =>
    simp only [removeEntry, lookupEntry]
    by_cases he : e.1 = k
    · rw [if_pos he, ih, if_neg (show ¬ e.1 = k' by rw [he]; exact fun hh => h hh.symm)]
    · rw [if_neg he]
      simp only [lookupEntry]
      rw [ih]

theorem lookup_upsert_other (es : List (CKey × CalcStatus)) (k k' : CKey) (v : CalcStatus)
    (h : k' ≠ k) : lookupEntry (upsertEntry es k v) k' = lookupEntry es k' := by
  simp only [upsertEntry, lookupEntry]
  rw [if_neg (fun hh => h hh.symm), lookup_remove_other es k k' h]

theorem lookup_remove_self (es : List (CKey × CalcStatus)) (k : CKey) :
    lookupEntry (removeEntry es k) k = none := by
  induction es with
  | nil => rfl
  | cons e rest ih =>
    simp only [removeEntry]
    by_cases he : e.1 = k
    · rw [if_pos he]; exact ih
    · rw [if_neg he, lookupEntry, if_neg he]; exact ih

theorem lookup_delFull_self (es : List (CKey × CalcStatus)) (sh : Option String)
    (q : List String) : lookupEntry (delFullEntries es sh q) (sh, q) = none := by
  induction es with
  | nil => rfl
  | cons e rest ih =>
    simp only [delFullEntries]
    by_cases he : e.1.1 = sh ∧ e.1.2.take 1 = q.take 1
    · rw [if_pos he]; exact ih
    · rw [if_neg he, lookupEntry, if_neg ?_]
      · exact ih
      · intro hk
        exact he ⟨by rw [hk], by rw [hk]⟩

def removeAll : List String → String → List String
  | [], _ => []
  | p :: rest, x => if p = x then removeAll rest x else p :: removeAll rest x

theorem not_mem_removeAll (l : List String) (x : String) : x ∉ removeAll l x := by
  induction l with
  | nil => simp [removeAll]
  | cons p rest ih =>
    simp only [removeAll]
    by_cases hp : p = x
    · rw [if_pos hp]; exact ih
    · rw [if_neg hp]
      intro hmem
      rcases List.mem_cons.1 hmem with h | h
      · exact hp h.symm
      · exact ih h

theorem mem_removeAll_of_mem (l : List String) (x p : String) (hne : p ≠ x)
    (hmem : p ∈ l) : p ∈ removeAll l x := by
  induction l with
  | nil => cases hmem
  | cons a rest ih =>
    simp only [removeAll]
    rcases List.mem_cons.1 hmem with h | h
    · subst h
      rw [if_neg hne]
      exact List.mem_cons_self _ _
    · by_cases ha : a = x
      · rw [if_pos ha]; exact ih h
      · rw [if_neg ha]; exact List.mem_cons_of_mem _ (ih h)

/-- The mutable world the coordinator acts on: the cache-map entries, the
size index maintained by `add_to_map`, the set of existing cache files, and
the clock (in deciseconds).  Workers and the resolver thread this state. -/
structure CacheState where
  entries : List (CKey × CalcStatus)
  sizes : List (CKey × Int)
  files : List String
  now : Int
deriving DecidableEq

def get_calc_status (st : CacheState) (sh : Option String) (q : List String) :
    Option CalcStatus :=
  lookupEntry st.entries (sh, q)

/-- Canonical cache-file path for a key (the concrete layout is opaque; an
entry's registered path is a function of its key). -/
def cachePathOf (sh : Option String) (q : List String) : String :=
  "cache/" ++ sh.getD "-" ++ "/" ++ String.intercalate "::" q

/-- cache_file_path: the registered path when an entry for the exact key
exists, else None (per the abstract interface's docstring).  Paths are
non-empty by construction, so Python's truthiness test on the returned
string coincides with the `Option.isSome` test. -/
def cache_file_path (st : CacheState) (sh : Option String) (q : List String) :
    Option String :=
  match lookupEntry st.entries (sh, q) with
  | some _ => some (cachePathOf sh q)
  | none => none

def del_entry (st : CacheState) (sh : Option String) (q : List String) : CacheState :=
  { st with entries := removeEntry st.entries (sh, q) }

def del_full_entry (st : CacheState) (sh : Option String) (q : List String) : CacheState :=
  { st with entries := delFullEntries st.entries sh q }

/-- A fresh CalcStatus as `__init__` builds it at the current time (`created`
and `last_upd` default to now, sizes to 0). -/
def newCalcStatus (now : Int) : CalcStatus :=
  { created := now, last_upd := now }

def update_calc_status (st : CacheState) (sh : Option String) (q : List String)
    (kw : List (String × PyVal)) : CacheState :=
  let s0 := match lookupEntry st.entries (sh, q) with
    | some s => s
    | none => newCalcStatus st.now
  { st with entries := upsertEntry st.entries (sh, q) (s0.updOk kw st.now) }

def sleep (st : CacheState) (n : Nat) : CacheState :=
  { st with now := st.now + n }

def addFile (st : CacheState) (p : String) : CacheState :=
  if p ∈ st.files then st else { st with files := p :: st.files }

def removeFile (st : CacheState) (p : String) : CacheState :=
  { st with files := removeAll st.files p }

/-- conc.save(path): creates or overwrites the file at `path`. -/
def saveFile (st : CacheState) (p : String) : CacheState := addFile st p

/-- os.rename(src, dst): the atomic replace used by the worker. -/
def renameFile (st : CacheState) (src dst : String) : CacheState :=
  addFile (removeFile st src) dst

/-- os.path.isfile on an optional path.  The source would raise a TypeError
on None; that point is unreachable there because a missing entry makes the
preceding status check raise first. -/
def isfile (st : CacheState) (p : Option String) : Bool :=
  match p with
  | some s => decide (s ∈ st.files)
  | none => false

/-- del_silent: remove a file, swallowing OSError (missing file) and
TypeError (None path). -/
def del_silent (st : CacheState) (p : Option String) : CacheState :=
  match p with
  | some x => removeFile st x
  | none => st

/-- cancel_async_task: compute the entry's cache-file path, best-effort
revoke the worker's task (the revocation talks only to the remote dispatch
facade and any IOError from it is swallowed, so the cache state is the same
whether revocation succeeds or fails — `revokeFails` records that outcome),
then unconditionally delete the map entry and the cache file. -/
def cancel_async_task (_revokeFails : Bool) (st : CacheState) (sh : Option String)
    (q : List String) : CacheState :=
  let cachefile := cache_file_path st sh q
  let st1 := del_entry st sh q
  del_silent st1 cachefile

/-- C8: whatever the outcome of revoking the worker task, cancelling an
existing entry deletes the cache-map record — a subsequent get_calc_status
returns null — and removes the backing cache file from storage. -/
theorem cancel_async_task_clears_entry_and_file (revokeFails : Bool) (st : CacheState)
    (sh : Option String) (q : List String) (s : CalcStatus)
    (h : get_calc_status st sh q = some s) :
    get_calc_status (cancel_async_task revokeFails st sh q) sh q = none ∧
    cachePathOf sh q ∉ (cancel_async_task revokeFails st sh q).files := by
  have hpath : cache_file_path st sh q = some (cachePathOf sh q) := by
    unfold cache_file_path
    rw [show lookupEntry st.entries (sh, q) = some s from h]
  constructor
  · unfold cancel_async_task
    rw [hpath]
    simp only [del_silent, get_calc_status, removeFile, del_entry]
    exact lookup_remove_self _ _
  · unfold cancel_async_task
    rw [hpath]
    simp only [del_silent, removeFile, del_entry]
    exact not_mem_removeAll _ _

def c8st : CacheState :=
  { entries := [((some "h", ["q,Q1"]), { finished := true, concsize := some 7 })],
    sizes := [], files := [cachePathOf (some "h") ["q,Q1"]], now := 100 }

/-- C8 witness: the cancellation theorem applied to a concrete state holding
one entry and its backing file. -/
theorem cancel_async_task_clears_entry_and_file_witness :
    get_calc_status (cancel_async_task true c8st (some "h") ["q,Q1"]) (some "h") ["q,Q1"] =
      none ∧
    cachePathOf (some "h") ["q,Q1"] ∉ (cancel_async_task true c8st (some "h") ["q,Q1"]).files :=
  cancel_async_task_clears_entry_and_file true c8st (some "h") ["q,Q1"]
    { finished := true, concsize := some 7 } rfl

/-! ### Shuffle detection and the resolver's candidate prefixes -/

/-- The scan inside _contains_shuffle_seq: `prev_shuffle` tracks whether the
previous operation was a shuffle; two adjacent 'f' items yield True. -/
def shuffleScan : Bool → List String → Bool
  | _, [] => false
  | prev, item :: rest =>
    if item = "f" then
      if prev then true else shuffleScan true rest
    else
      shuffleScan false rest

def containsShuffleSeq (q : List String) : Bool :=
  shuffleScan false q

/-- srch_from in find_cached_conc_base: 1 when the query holds a shuffle
subsequence, else the full length. -/
def srchFrom (q : List String) : Nat :=
  if containsShuffleSeq q then 1 else q.length

/-- The list [n, n-1, ..., 1], the meaning of `range(n, 0, -1)`. -/
def countdown : Nat → List Nat
  | 0 => []
  | n + 1 => (n + 1) :: countdown n

/-- The prefix lengths find_cached_conc_base examines, longest first:
`range(srch_from, 0, -1)`. -/
def srchCandidates (q : List String) : List Nat :=
  countdown (srchFrom q)

/-- C3 counterexample: for the spec's own scenario `('q','Q1'), ('f',),
('f',)` the candidate list is `[1]` — `srch_from` is set to 1 and the loop
counts *down* from it, so prefix lengths 2 and 3 (in particular the full
length) are never examined, contradicting the claim that every prefix from 1
up to `len(q)` is a candidate. -/
theorem srchCandidates_shuffle_cex :
    containsShuffleSeq ["q,Q1", "f", "f"] = true ∧
    srchCandidates ["q,Q1", "f", "f"] = [1] ∧
    ¬ (3 ∈ srchCandidates ["q,Q1", "f", "f"]) ∧
    ¬ (2 ∈ srchCandidates ["q,Q1", "f", "f"]) := by
  refine ⟨rfl, rfl, ?_, ?_⟩ <;> decide

/-- C3 (amended): when the query sequence contains two consecutive shuffle
operations, find_cached_conc_base restricts its cache lookup to the single
prefix length 1 (the base query); longer prefixes are examined only for
queries without a consecutive-shuffle subsequence. -/
theorem srchCandidates_shuffle_only_first (q : List String)
    (h : containsShuffleSeq q = true) : srchCandidates q = [1] := by
  unfold srchCandidates srchFrom
  rw [if_pos h]
  rfl

/-- C3 witness: the amended theorem applied to the spec's scenario query. -/
theorem srchCandidates_shuffle_only_first_witness :
    srchCandidates ["q,Q1", "f", "f"] = [1] :=
  srchCandidates_shuffle_only_first ["q,Q1", "f", "f"] rfl

/-! ### Wait protocol -/

/-- settings.get_int('calc_backend', 'task_time_limit', 300), at its default,
in deciseconds. -/
def TASK_TIME_LIMIT : Int := 3000

/-- _check_result: validate the stored status; a missing status or a
test_error failure evicts the whole chain (del_full_entry) and raises;
otherwise return the pair (not has_some_result(minsize), finished). -/
def check_result (st : CacheState) (q : List String) (sh : Option String) (minsize : Int) :
    Except (String × CacheState) ((Bool × Bool) × CacheState) :=
  match get_calc_status st sh q with
  | none =>
    .error ("Missing status information", del_full_entry st sh q)
  | some s =>
    match s.test_error st.now TASK_TIME_LIMIT with
    | some e => .error (e, del_full_entry st sh q)
    | none => .ok ((¬ s.has_some_result minsize, s.finished), st)

/-- Polling loop of wait_for_conc: while the status is unfinished and the
budget is not exhausted, sleep `i * 0.1` seconds (here `j + 1` deciseconds,
with `i = j + 1`), re-check, and iterate.  The loop's exit is decided by the
`finished` flag and the clock alone.  The extra fuel argument only bounds the
recursion depth for the termination checker; `wait_for_conc` passes
`time_limit + 1`, which `wait_loop_fuel_irrelevant` below proves is never
exhausted, every iteration advancing the clock by at least one tick. -/
def wait_loop (q : List String) (sh : Option String) (minsize t0 time_limit : Int) :
    Nat → Nat → Bool → Bool → CacheState → Except (String × CacheState) ((Bool × Bool) × CacheState)
  | _, 0, has_result, finished, st => .ok ((has_result, finished), st)
  | j, fuel + 1, has_result, finished, st =>
    if finished = false ∧ st.now - t0 < time_limit then
      let st1 := sleep st (j + 1)
      match check_result st1 q sh minsize with
      | .error e => .error e
      | .ok ((hr, fin), st2) => wait_loop q sh minsize t0 time_limit (j + 1) fuel hr fin st2
    else
      .ok ((has_result, finished), st)

theorem check_result_now (st : CacheState) (q : List String) (sh : Option String)
    (minsize : Int) (r : (Bool × Bool) × CacheState)
    (h : check_result st q sh minsize = .ok r) : r.2 = st := by
  unfold check_result at h
  split at h
  · cases h
  · split at h
    · cases h
    · cases h
      rfl

/-- Fuel adequacy: as long as the fuel exceeds the ticks left in the budget,
its exact value does not matter — each loop iteration advances the clock by
at least one tick, so the real exit condition fires first. -/
theorem wait_loop_fuel_irrelevant (q : List String) (sh : Option String)
    (minsize t0 time_limit : Int) :
    ∀ fuel fuel' j hr fin st, (t0 + time_limit - st.now).toNat < fuel →
      (t0 + time_limit - st.now).toNat < fuel' →
      wait_loop q sh minsize t0 time_limit j fuel hr fin st =
        wait_loop q sh minsize t0 time_limit j fuel' hr fin st := by
  intro fuel
  induction fuel with
  | zero => intro fuel' j hr fin st h; omega
  | succ fuel ih =>
    intro fuel' j hr fin st h h'
    cases fuel' with
    | zero => omega
    | succ fuel' =>
      simp only [wait_loop]
      by_cases hc : fin = false ∧ st.now - t0 < time_limit
      · rw [if_pos hc, if_pos hc]
        cases hcr : check_result (sleep st (j + 1)) q sh minsize with
        | error e => rfl
        | ok r =>
          obtain ⟨⟨hr', fin'⟩, st2⟩ := r
          have hst2 : st2 = sleep st (j + 1) :=
            check_result_now (sleep st (j + 1)) q sh minsize _ hcr
          have hnow : st2.now = st.now + (j + 1 : Nat) := by rw [hst2]; rfl
          exact ih fuel' (j + 1) hr' fin' st2 (by omega) (by omega)
      · rw [if_neg hc, if_neg hc]

/-- wait_for_conc: pick the budget from the sign of minsize (5 s when some
partial result suffices, 30 s when the caller wants the full concordance),
check once, run the polling loop, and finally report readiness as the
existence of the cache file — deleting a stray "finished" status whose file
is missing. -/
def wait_for_conc (st : CacheState) (q : List String) (sh : Option String) (minsize : Int) :
    Except (String × CacheState) (Bool × CacheState) :=
  let time_limit : Int := if 0 ≤ minsize then 50 else 300
  let t0 := st.now
  match check_result st q sh minsize with
  | .error e => .error e
  | .ok ((has_result, finished), st1) =>
    match wait_loop q sh minsize t0 time_limit 0 (time_limit.toNat + 1) has_result finished st1 with
    | .error e => .error e
    | .ok ((_, finished2), st2) =>
      if isfile st2 (cache_file_path st2 sh q) = false then
        if finished2 then .ok (false, del_entry st2 sh q)
        else .ok (false, st2)
      else
        .ok (true, st2)

theorem sleep_entries (st : CacheState) (n : Nat) : (sleep st n).entries = st.entries := rfl

theorem sleep_files (st : CacheState) (n : Nat) : (sleep st n).files = st.files := rfl

theorem sleep_now (st : CacheState) (n : Nat) : (sleep st n).now = st.now + n := rfl

theorem get_calc_status_sleep (st : CacheState) (n : Nat) (sh : Option String)
    (q : List String) : get_calc_status (sleep st n) sh q = get_calc_status st sh q := rfl

theorem cache_file_path_entries (st st' : CacheState) (sh : Option String) (q : List String)
    (h : st'.entries = st.entries) : cache_file_path st' sh q = cache_file_path st sh q := by
  unfold cache_file_path
  rw [h]

theorem isfile_files (st st' : CacheState) (p : Option String) (h : st'.files = st.files) :
    isfile st' p = isfile st p := by
  unfold isfile
  cases p with
  | none => rfl
  | some s => rw [h]

theorem test_error_none (s : CalcStatus) (now tl : Int) (herr : s.error = none)
    (h : ¬ (¬ s.finished = true ∧ now - s.last_upd > tl)) :
    s.test_error now tl = none := by
  unfold CalcStatus.test_error
  rw [herr]
  exact if_neg h

theorem check_result_ok (st : CacheState) (q : List String) (sh : Option String)
    (minsize : Int) (s : CalcStatus) (hst : get_calc_status st sh q = some s)
    (htest : s.test_error st.now TASK_TIME_LIMIT = none) :
    check_result st q sh minsize = .ok ((¬ s.has_some_result minsize, s.finished), st) := by
  unfold check_result
  rw [hst]
  show (match s.test_error st.now TASK_TIME_LIMIT with
    | some e => Except.error (e, del_full_entry st sh q)
    | none => Except.ok ((decide (¬ s.has_some_result minsize = true), s.finished), st)) = _
  rw [htest]

theorem wait_loop_zero (q : List String) (sh : Option String)
    (minsize t0 time_limit : Int) (j : Nat) (hr fin : Bool) (st : CacheState) :
    wait_loop q sh minsize t0 time_limit j 0 hr fin st = .ok ((hr, fin), st) := rfl

theorem wait_loop_succ (q : List String) (sh : Option String)
    (minsize t0 time_limit : Int) (j fuel : Nat) (hr fin : Bool) (st : CacheState) :
    wait_loop q sh minsize t0 time_limit j (fuel + 1) hr fin st =
      if fin = false ∧ st.now - t0 < time_limit then
        (match check_result (sleep st (j + 1)) q sh minsize with
          | Except.error e => Except.error e
          | Except.ok r => wait_loop q sh minsize t0 time_limit (j + 1) fuel r.1.1 r.1.2 r.2)
      else Except.ok ((hr, fin), st) := by
  by_cases hc : fin = false ∧ st.now - t0 < time_limit
  · rw [if_pos hc]
    simp only [wait_loop, if_pos hc]
    cases hcr : check_result (sleep st (j + 1)) q sh minsize with
    | error e => rfl
    | ok r =>
      obtain ⟨⟨hr2, fin2⟩, st2⟩ := r
      rfl
  · rw [if_neg hc]
    simp only [wait_loop, if_neg hc]

/-- Behaviour of the polling loop over a frozen, valid, unfinished status:
it keeps sleeping until the clock has consumed the whole budget, whatever
`has_some_result` evaluates to. -/
theorem wait_loop_unfinished (q : List String) (sh : Option String)
    (minsize t0 time_limit : Int) (s : CalcStatus)
    (hlim' : time_limit ≤ 300)
    (herr : s.error = none) (hfin : s.finished = false)
    (hupd : t0 - s.last_upd ≤ 2000) :
    ∀ fuel (j : Nat) hr (st : CacheState), get_calc_status st sh q = some s →
      (t0 + time_limit - st.now).toNat < fuel →
      t0 ≤ st.now → (j : Int) + 1 ≤ st.now - t0 + 1 →
      ∃ b st', wait_loop q sh minsize t0 time_limit j fuel hr false st = .ok ((b, false), st') ∧
        st'.entries = st.entries ∧ st'.files = st.files ∧ t0 + time_limit ≤ st'.now := by
  intro fuel
  induction fuel with
  | zero =>
    intro j hr st hst hfuel ht hj
    omega
  | succ fuel ih =>
    intro j hr st hst hfuel ht hj
    rw [wait_loop_succ]
    by_cases hc : st.now - t0 < time_limit
    · rw [if_pos ⟨rfl, hc⟩]
      have hst1 : get_calc_status (sleep st (j + 1)) sh q = some s := hst
      have htest : s.test_error (sleep st (j + 1)).now TASK_TIME_LIMIT = none := by
        apply test_error_none _ _ _ herr
        rw [sleep_now]
        unfold TASK_TIME_LIMIT
        intro hcon
        have h2 := hcon.2
        omega
      rw [check_result_ok (sleep st (j + 1)) q sh minsize s hst1 htest]
      rw [hfin]
      obtain ⟨b, st', hloop, hent, hfil, hnow⟩ :=
        ih (j + 1) (¬ s.has_some_result minsize) (sleep st (j + 1)) hst1
          (by rw [sleep_now]; omega) (by rw [sleep_now]; omega)
          (by rw [sleep_now]; push_cast; omega)
      exact ⟨b, st', hloop, hent, hfil, hnow⟩
    · rw [if_neg (fun hcc => hc hcc.2)]
      exact ⟨hr, st, rfl, rfl, rfl, by omega⟩

/-- C2 (amended): wait_for_conc's polling loop exits only when the stored
status reports `finished` or the time budget runs out — the `has_some_result`
acceptance flag is computed at each poll but never terminates the loop.  For
a frozen, valid, unfinished status the call sleeps through the entire budget
(5 s when minsize ≥ 0, 30 s otherwise) no matter how large the recorded
concsize already is, and then returns True iff the cache file exists. -/
theorem wait_for_conc_runs_full_budget_when_unfinished (st : CacheState) (q : List String)
    (sh : Option String) (minsize : Int) (s : CalcStatus)
    (hst : get_calc_status st sh q = some s) (herr : s.error = none)
    (hfin : s.finished = false) (hupd : st.now - s.last_upd ≤ 2000) :
    ∃ st', wait_for_conc st q sh minsize =
        .ok (isfile st (cache_file_path st sh q), st') ∧
      st'.entries = st.entries ∧ st'.files = st.files ∧
      st.now + (if 0 ≤ minsize then (50 : Int) else 300) ≤ st'.now := by
  have hlim' : (if 0 ≤ minsize then (50 : Int) else 300) ≤ 300 := by
    by_cases hm : 0 ≤ minsize <;> simp [hm]
  have htest : s.test_error st.now TASK_TIME_LIMIT = none := by
    apply test_error_none _ _ _ herr
    unfold TASK_TIME_LIMIT
    intro hcon
    have h2 := hcon.2
    omega
  have hcheck := check_result_ok st q sh minsize s hst htest
  rw [hfin] at hcheck
  obtain ⟨b, st', hloop, hent, hfil, hnow⟩ :=
    wait_loop_unfinished q sh minsize st.now (if 0 ≤ minsize then (50 : Int) else 300) s
      hlim' herr hfin (by omega) ((if 0 ≤ minsize then (50 : Int) else 300).toNat + 1)
      0 (¬ s.has_some_result minsize) st hst (by omega) (by omega) (by omega)
  refine ⟨st', ?_, hent, hfil, hnow⟩
  have hpath : cache_file_path st' sh q = cache_file_path st sh q :=
    cache_file_path_entries st st' sh q hent
  have hfile : isfile st' (cache_file_path st' sh q) = isfile st (cache_file_path st sh q) := by
    rw [hpath]
    exact isfile_files st st' _ hfil
  unfold wait_for_conc
  simp only [hcheck, hloop, hfile]
  cases hbb : isfile st (cache_file_path st sh q) with
  | false => simp
  | true => simp

def c2s : CalcStatus :=
  { concsize := some 5, finished := false, error := none, created := 0, last_upd := 0 }

def c2st : CacheState :=
  { entries := [((none, ["q,A"]), c2s)], sizes := [],
    files := [cachePathOf none ["q,A"]], now := 0 }

/-- C2 counterexample: at this concrete input the stored status satisfies
`has_some_result(1)` already at the very first poll (concsize 5 ≥ 1) and the
cache file exists, yet the calculation is not finished — and the wait does
not end at that poll: the loop sleeps 0.1 + 0.2 + ... + 1.0 s (final clock
55 ticks later) until the 5 s budget expires, refuting the claim that a poll
iteration in which `has_some_result(minsize)` holds ends the wait. -/
theorem wait_for_conc_has_some_result_cex :
    c2s.has_some_result 1 = true ∧ c2s.finished = false ∧
    wait_for_conc c2st ["q,A"] none 1 = .ok (true, { c2st with now := 55 }) ∧
    ({ c2st with now := 55 } : CacheState).now ≠ c2st.now := by
  refine ⟨rfl, rfl, rfl, by decide⟩

def c2ws : CalcStatus :=
  { concsize := some 3, finished := false, error := none, created := 10, last_upd := 10 }

def c2wst : CacheState :=
  { entries := [((some "w", ["q,B"]), c2ws)], sizes := [],
    files := [cachePathOf (some "w") ["q,B"]], now := 10 }

/-- C2 witness: the amended theorem applied at a concrete state with an
unfinished, valid status record and minsize 0. -/
theorem wait_for_conc_runs_full_budget_when_unfinished_witness :
    ∃ st', wait_for_conc c2wst ["q,B"] (some "w") 0 =
        .ok (isfile c2wst (cache_file_path c2wst (some "w") ["q,B"]), st') ∧
      st'.entries = c2wst.entries ∧ st'.files = c2wst.files ∧
      c2wst.now + (if 0 ≤ (0 : Int) then (50 : Int) else 300) ≤ st'.now :=
  wait_for_conc_runs_full_budget_when_unfinished c2wst ["q,B"] (some "w") 0 c2ws
    rfl rfl rfl (by decide)

/-! ### Prefix resolver -/

/-- The relevant observable surface of a manatee corpus: its configuration
name and its on-disk modification time (the latter is what the external
corpus-metadata provider `corplib.corp_mtime` reports). -/
structure Corpus where
  name : String
  mtime : Int
deriving DecidableEq

/-- Modelled from the spec: `corplib.corp_mtime` (external corpus metadata
provider, not part of this source tree) returns the corpus's last
modification time. -/
def corp_mtime (corp : Corpus) : Int := corp.mtime

/-- A concordance value as the resolver produces it: either the explicit
empty sentinel `EmptyConc(corp)` or a `PyConc(mcorp, 'l', cache_path,
orig_corp=corp)` loaded from a cache file. -/
inductive Concordance where
  | empty (corpName : String)
  | pyconc (mainCorp : String) (cachePath : String) (origCorp : String)
deriving DecidableEq

/-- The reversed scan for an alignment marker: the main corpus is taken from
the last operation of the prefix that starts with "x-" (its remainder names
the aligned corpus), else it is the original corpus. -/
def mainCorpName (corp : Corpus) (qs : List String) : String :=
  match qs.reverse.find? (fun qq => qq.startsWith "x-") with
  | some qq => qq.drop 2
  | none => corp.name

/-- The eviction phase at the top of find_cached_conc_base (after the
modelled no-op refresh_map): inspect the status of the full query; a
non-errored status older than the corpus indices, or an errored status, is
evicted with del_full_entry. -/
def fcb_evict (corp : Corpus) (sh : Option String) (q : List String)
    (st : CacheState) : CacheState :=
  match get_calc_status st sh q with
  | some cs =>
    if cs.error = none then
      if cs.created - corp_mtime corp < 0 then del_full_entry st sh q else st
    else del_full_entry st sh q
  | none => st

/-- The candidate loop of find_cached_conc_base over the prefix lengths of
`srchCandidates`: skip candidates without a registered cache path; wait for
the candidate's calculation; a timed-out wait cancels the entry (unless
minsize = 0) and moves on; a status exception from the wait or the re-check
cancels the entry and moves on; otherwise record the answer `(i, conc)` —
loading the concordance from the cache file only when the status is
finished — and stop. -/
def fcb_loop (corp : Corpus) (sh : Option String) (q : List String) (minsize : Int)
    (conc : Concordance) (ans : Nat × Concordance) :
    List Nat → CacheState → (Nat × Concordance) × CacheState
  | [], st => (ans, st)
  | i :: rest, st =>
    match cache_file_path st sh (q.take i) with
    | none => fcb_loop corp sh q minsize conc ans rest st
    | some cache_path =>
      match wait_for_conc st (q.take i) sh minsize with
      | .error e =>
        fcb_loop corp sh q minsize conc ans rest (cancel_async_task false e.2 sh (q.take i))
      | .ok (ready, st1) =>
        if ready = false then
          if minsize ≠ 0 then
            fcb_loop corp sh q minsize conc ans rest (cancel_async_task false st1 sh (q.take i))
          else
            fcb_loop corp sh q minsize conc ans rest st1
        else
          match check_result st1 (q.take i) sh minsize with
          | .error e =>
            fcb_loop corp sh q minsize conc ans rest (cancel_async_task false e.2 sh (q.take i))
          | .ok ((_, finished), st2) =>
            let conc2 :=
              if finished then
                Concordance.pyconc (mainCorpName corp (q.take i)) cache_path corp.name
              else conc
            ((i, conc2), st2)

/-- find_cached_conc_base: refresh the map (modelled no-op), run the
eviction phase for the full query, then search the candidate prefix
lengths, longest first, starting from the answer `(0, EmptyConc(corp))`. -/
def find_cached_conc_base (corp : Corpus) (sh : Option String) (q : List String)
    (minsize : Int) (st : CacheState) : (Nat × Concordance) × CacheState :=
  let st1 := fcb_evict corp sh q st
  fcb_loop corp sh q minsize (Concordance.empty corp.name) (0, Concordance.empty corp.name)
    (srchCandidates q) st1

/-- C5: when the status stored for the full query carries an error, the
eviction phase of find_cached_conc_base removes the full entry — a
subsequent get_calc_status for the query returns null — and the resolver
only then proceeds to the prefix search, which runs on the evicted state. -/
theorem fcb_evict_errored_full_entry (corp : Corpus) (sh : Option String)
    (q : List String) (minsize : Int) (st : CacheState) (s : CalcStatus) (e : String)
    (hst : get_calc_status st sh q = some s) (herr : s.error = some e) :
    get_calc_status (fcb_evict corp sh q st) sh q = none ∧
    find_cached_conc_base corp sh q minsize st =
      fcb_loop corp sh q minsize (Concordance.empty corp.name)
        (0, Concordance.empty corp.name) (srchCandidates q) (fcb_evict corp sh q st) := by
  constructor
  · unfold fcb_evict
    simp only [hst]
    rw [if_neg (by rw [herr]; simp)]
    exact lookup_delFull_self st.entries sh q
  · rfl

def c5cs : CalcStatus := { error := some "failed", finished := true }

def c5st : CacheState :=
  { entries := [((some "s5", ["q,E"]), c5cs), ((some "s5", ["q,E", "f"]), c5cs)],
    sizes := [], files := [], now := 7 }

/-- C5 witness: the eviction theorem applied to a concrete state whose full
entry carries an error. -/
theorem fcb_evict_errored_full_entry_witness :
    get_calc_status (fcb_evict { name := "c5", mtime := 0 } (some "s5") ["q,E"] c5st)
      (some "s5") ["q,E"] = none ∧
    find_cached_conc_base { name := "c5", mtime := 0 } (some "s5") ["q,E"] 0 c5st =
      fcb_loop { name := "c5", mtime := 0 } (some "s5") ["q,E"] 0 (Concordance.empty "c5")
        (0, Concordance.empty "c5") (srchCandidates ["q,E"])
        (fcb_evict { name := "c5", mtime := 0 } (some "s5") ["q,E"] c5st) :=
  fcb_evict_errored_full_entry { name := "c5", mtime := 0 } (some "s5") ["q,E"] 0 c5st
    c5cs "failed" rfl rfl

/-- C1 (amended): for a query with no consecutive-shuffle subsequence, a
finished, non-errored, non-stale status at the full prefix whose cache file
exists makes find_cached_conc_base return `(len q, conc)` with `conc` the
concordance loaded from that entry's cache file (the main corpus resolved
through the alignment scan).  The restriction to shuffle-free queries is
forced: with consecutive shuffles the resolver never examines the full
prefix (see the C3 theorems and the C1 counterexample). -/
theorem find_cached_conc_base_full_prefix_hit (corp : Corpus) (sh : Option String)
    (q : List String) (minsize : Int) (st : CacheState) (s : CalcStatus)
    (hq : q ≠ []) (hshuf : containsShuffleSeq q = false)
    (hst : get_calc_status st sh q = some s) (herr : s.error = none)
    (hfin : s.finished = true) (hmt : corp_mtime corp ≤ s.created)
    (hfile : cachePathOf sh q ∈ st.files) :
    (find_cached_conc_base corp sh q minsize st).1 =
      (q.length, Concordance.pyconc (mainCorpName corp q) (cachePathOf sh q) corp.name) := by
  obtain ⟨n, hn⟩ : ∃ n, q.length = n + 1 := by
    cases q with
    | nil => cases hq rfl
    | cons a t => exact ⟨t.length, rfl⟩
  have htest : s.test_error st.now TASK_TIME_LIMIT = none :=
    test_error_none _ _ _ herr (fun hcon => hcon.1 hfin)
  have hcheck : check_result st q sh minsize =
      .ok ((¬ s.has_some_result minsize, true), st) := by
    have h := check_result_ok st q sh minsize s hst htest
    rw [hfin] at h
    exact h
  have hcfp : cache_file_path st sh q = some (cachePathOf sh q) := by
    unfold cache_file_path
    rw [show lookupEntry st.entries (sh, q) = some s from hst]
  have hfi : isfile st (some (cachePathOf sh q)) = true := by
    unfold isfile
    exact decide_eq_true hfile
  have hwl : wait_loop q sh minsize st.now (if 0 ≤ minsize then (50 : Int) else 300) 0
      ((if 0 ≤ minsize then (50 : Int) else 300).toNat + 1)
      (¬ s.has_some_result minsize) true st =
      .ok ((¬ s.has_some_result minsize, true), st) := by
    rw [wait_loop_succ]
    rw [if_neg (by simp)]
  have hw : wait_for_conc st q sh minsize = .ok (true, st) := by
    unfold wait_for_conc
    simp only [hcheck, hwl, hcfp, hfi]
    simp
  have hevict : fcb_evict corp sh q st = st := by
    unfold fcb_evict
    simp only [hst]
    rw [if_pos herr, if_neg (by omega)]
  have hcand : srchCandidates q = (n + 1) :: countdown n := by
    unfold srchCandidates srchFrom
    rw [if_neg (by simp [hshuf]), hn]
    rfl
  have htake : q.take (n + 1) = q := by
    rw [← hn]
    exact List.take_length q
  unfold find_cached_conc_base
  simp only [hevict, hcand]
  simp [fcb_loop, htake, hcfp, hw, hcheck, hn]

def c1cs : CalcStatus :=
  { finished := true, error := none, created := 100, last_upd := 100, concsize := some 4 }

def c1st : CacheState :=
  { entries := [((none, ["f", "f"]), c1cs)], sizes := [],
    files := [cachePathOf none ["f", "f"]], now := 100 }

/-- C1 counterexample: the query `["f", "f"]` (two consecutive shuffles) has
a finished, non-errored, non-stale cache entry at its full prefix whose
cache file exists, yet find_cached_conc_base returns `(0, EmptyConc)` rather
than `(2, <loaded concordance>)`: the consecutive-shuffle rule makes the
resolver search downward from prefix length 1 only, so the full entry is
never examined. -/
theorem find_cached_conc_base_shuffle_full_prefix_cex :
    get_calc_status c1st none ["f", "f"] = some c1cs ∧
    c1cs.finished = true ∧ c1cs.error = none ∧
    corp_mtime { name := "corp1", mtime := 50 } ≤ c1cs.created ∧
    cachePathOf none ["f", "f"] ∈ c1st.files ∧
    (find_cached_conc_base { name := "corp1", mtime := 50 } none ["f", "f"] 0 c1st).1 =
      (0, Concordance.empty "corp1") ∧
    (find_cached_conc_base { name := "corp1", mtime := 50 } none ["f", "f"] 0 c1st).1 ≠
      (["f", "f"].length,
        Concordance.pyconc (mainCorpName { name := "corp1", mtime := 50 } ["f", "f"])
          (cachePathOf none ["f", "f"]) "corp1") := by
  refine ⟨rfl, rfl, rfl, by decide, ?_, rfl, by decide⟩
  show cachePathOf none ["f", "f"] ∈ [cachePathOf none ["f", "f"]]
  exact List.mem_singleton.2 rfl

def c1ws : CalcStatus :=
  { finished := true, error := none, created := 30, last_upd := 30, concsize := some 9 }

def c1wst : CacheState :=
  { entries := [((some "w1", ["q,W"]), c1ws)], sizes := [],
    files := [cachePathOf (some "w1") ["q,W"]], now := 40 }

/-- C1 witness: the amended theorem applied at a concrete shuffle-free query
with a finished full-prefix entry. -/
theorem find_cached_conc_base_full_prefix_hit_witness :
    (find_cached_conc_base { name := "cw", mtime := 20 } (some "w1") ["q,W"] (-1) c1wst).1 =
      (["q,W"].length,
        Concordance.pyconc (mainCorpName { name := "cw", mtime := 20 } ["q,W"])
          (cachePathOf (some "w1") ["q,W"]) "cw") :=
  find_cached_conc_base_full_prefix_hit { name := "cw", mtime := 20 } (some "w1") ["q,W"]
    (-1) c1wst c1ws (by decide) rfl rfl rfl rfl (by decide)
    (List.mem_singleton.2 rfl)

def c10cs : CalcStatus :=
  { finished := false, error := none, created := 100, last_upd := 100, concsize := some 5 }

def c10st : CacheState :=
  { entries := [((none, ["q,X", "s"]), c10cs)], sizes := [],
    files := [cachePathOf none ["q,X", "s"]], now := 100 }

/-- C10: find_cached_conc_base can return a positive start index paired with
the empty sentinel concordance: here the cache file for the full prefix
exists and the status validates (no error, no stall) but is not finished, so
the loop records `(2, EmptyConc)` and stops — a positive start index does
not imply a cached concordance was loaded. -/
theorem find_cached_conc_base_unfinished_positive_index :
    (find_cached_conc_base { name := "c10", mtime := 50 } none ["q,X", "s"] 0 c10st).1 =
      (2, Concordance.empty "c10") ∧
    c10cs.finished = false ∧ c10cs.error = none ∧
    get_calc_status c10st none ["q,X", "s"] = some c10cs ∧
    cachePathOf none ["q,X", "s"] ∈ c10st.files := by
  refine ⟨rfl, rfl, rfl, rfl, ?_⟩
  exact List.mem_singleton.2 rfl

/-! ### Asynchronous calculation worker (ConcCalculation) -/

/-- The size metrics dict returned by get_cached_conc_sizes. -/
structure Sizes where
  finished : Bool
  concsize : Int
  fullsize : Int
  relconcsize : Int
deriving DecidableEq

/-- Oracle for the external corpus engine and environment during one
ConcCalculation run: where (if anywhere) an exception is raised, the size
metrics reported after each unfinished partial-save iteration, the final
metrics, the ARF value, whether the corpus is a subcorpus, and the final
concordance size.  Failures are modelled at stage boundaries: while
acquiring the corpus and cache mapping (before `cache_map` is assigned), in
compute_conc, at the start of a partial-save iteration, or during the final
save and metrics. -/
structure EngineRun where
  acquireErr : Option String
  computeErr : Option String
  iterSizes : List Sizes
  iterErr : Option (Nat × String)
  finalErr : Option String
  finalSizes : Sizes
  arf : Int
  isSubcorp : Bool
  size : Int

def optStrV : Option String → PyVal
  | some s => .vstr s
  | none => .vnone

/-- Modelled from the spec: add_to_map registers the concordance size for
the key in the cache map's size index. -/
def removeSize : List (CKey × Int) → CKey → List (CKey × Int)
  | [], _ => []
  | e :: rest, k => if e.1 = k then removeSize rest k else e :: removeSize rest k

def add_to_map (st : CacheState) (sh : Option String) (q : List String) (size : Int) :
    CacheState :=
  { st with sizes := (((sh, q) : CKey), size) :: removeSize st.sizes (sh, q) }

def concIterFails (o : EngineRun) (j : Nat) : Bool :=
  match o.iterErr with
  | some ke => decide (ke.1 = j)
  | none => false

def concIterMsg (o : EngineRun) (_j : Nat) : String :=
  match o.iterErr with
  | some ke => ke.2
  | none => ""

/-- One partial-save iteration of the worker loop: save to the temporary
file, atomically rename it over the cache file, sleep the growing interval
(`sleeptime` is 0.1 before the first in-loop sleep and grows by 0.1 per
iteration, i.e. `j + 1` ticks at iteration `j`), then push the engine's size
metrics — with `arf=None` and the owning task id — into the cache map. -/
def concIterStep (sh : Option String) (query : List String) (cachefile : String)
    (tid : Option String) (sz : Sizes) (j : Nat) (st : CacheState) : CacheState :=
  let st1 := renameFile (saveFile st (cachefile ++ ".tmp")) (cachefile ++ ".tmp") cachefile
  let st2 := sleep st1 (j + 1)
  update_calc_status st2 sh query
    [("finished", .vbool sz.finished), ("concsize", .vint sz.concsize),
     ("fullsize", .vint sz.fullsize), ("relconcsize", .vint sz.relconcsize),
     ("arf", .vnone), ("task_id", optStrV tid)]

/-- The `while not conc.finished()` loop: one `concIterStep` per unfinished
iteration the engine reports, a raise where the oracle places one. -/
def concLoop (o : EngineRun) (sh : Option String) (query : List String) (cachefile : String)
    (tid : Option String) : Nat → List Sizes → CacheState →
    Except (String × CacheState) CacheState
  | _, [], st => .ok st
  | j, sz :: rest, st =>
    if concIterFails o j then .error (concIterMsg o j, st)
    else
      concLoop o sh query cachefile tid (j + 1) rest
        (concIterStep sh query cachefile tid sz j st)

/-- The body of ConcCalculation.__call__'s try block: acquire the corpus and
cache mapping; if an equivalent calculation is already running, do nothing;
otherwise compute the concordance, sleep 0.1, save a first partial file,
run the partial-save loop, then save the final result via temp-file +
rename, push finished metrics (ARF only for non-subcorpus runs) and register
the final size with add_to_map.  A raise at any stage aborts the body. -/
def concCalcBody (o : EngineRun) (alreadyRunning : Bool) (cachefile : String)
    (sh : Option String) (query : List String) (tid : Option String) (st : CacheState) :
    Except (String × CacheState) CacheState :=
  match o.acquireErr with
  | some m => .error (m, st)
  | none =>
    if alreadyRunning then .ok st
    else
      match o.computeErr with
      | some m => .error (m, st)
      | none =>
        let st1 := sleep st 1
        let st2 := saveFile st1 cachefile
        match concLoop o sh query cachefile tid 0 o.iterSizes st2 with
        | .error e => .error e
        | .ok st3 =>
          match o.finalErr with
          | some m => .error (m, st3)
          | none =>
            let st4 := renameFile (saveFile st3 (cachefile ++ ".tmp")) (cachefile ++ ".tmp")
              cachefile
            let st5 := update_calc_status st4 sh query
              [("finished", .vbool o.finalSizes.finished),
               ("concsize", .vint o.finalSizes.concsize),
               ("fullsize", .vint o.finalSizes.fullsize),
               ("relconcsize", .vint o.finalSizes.relconcsize),
               ("arf", if o.isSubcorp then PyVal.vnone else PyVal.vint o.arf),
               ("task_id", optStrV tid)]
            .ok (add_to_map st5 sh query o.size)

/-- ConcCalculation.__call__: run the body; on an exception, log it and —
only when the cache mapping had been assigned, i.e. acquisition succeeded —
record `finished=True, error=e` into the status; never re-raise. -/
def concCalculation (o : EngineRun) (alreadyRunning : Bool) (cachefile : String)
    (sh : Option String) (query : List String) (tid : Option String) (st : CacheState) :
    CacheState :=
  match concCalcBody o alreadyRunning cachefile sh query tid st with
  | .ok st' => st'
  | .error (m, st') =>
    if o.acquireErr = none then
      update_calc_status st' sh query [("finished", .vbool true), ("error", .vexc m)]
    else st'

def exState : Except (String × CacheState) CacheState → CacheState
  | .ok st => st
  | .error (_, st) => st

theorem addFile_files_mono (st : CacheState) (p p' : String) (h : p' ∈ st.files) :
    p' ∈ (addFile st p).files := by
  unfold addFile
  by_cases hm : p ∈ st.files
  · rw [if_pos hm]; exact h
  · rw [if_neg hm]; exact List.mem_cons_of_mem _ h

theorem renameFile_pres (st : CacheState) (src dst p : String) (h : p ∈ st.files)
    (hne : p ≠ src) : p ∈ (renameFile st src dst).files :=
  addFile_files_mono _ _ _ (mem_removeAll_of_mem _ _ _ hne h)

theorem update_calc_status_files (st : CacheState) (sh : Option String) (q : List String)
    (kw : List (String × PyVal)) : (update_calc_status st sh q kw).files = st.files := rfl

theorem concIterStep_pres (sh : Option String) (query : List String) (cachefile : String)
    (tid : Option String) (sz : Sizes) (j : Nat) (st : CacheState) (p : String)
    (hp : p ∈ st.files) (hne : p ≠ cachefile ++ ".tmp") :
    p ∈ (concIterStep sh query cachefile tid sz j st).files := by
  unfold concIterStep
  rw [update_calc_status_files, sleep_files]
  exact renameFile_pres _ _ _ _ (addFile_files_mono _ _ _ hp) hne

theorem concLoop_pres (o : EngineRun) (sh : Option String) (query : List String)
    (cachefile : String) (tid : Option String) :
    ∀ sizes (j : Nat) (st : CacheState) (p : String), p ∈ st.files →
      p ≠ cachefile ++ ".tmp" →
      p ∈ (exState (concLoop o sh query cachefile tid j sizes st)).files := by
  intro sizes
  induction sizes with
  | nil =>
    intro j st p hp hne
    exact hp
  | cons sz rest ih =>
    intro j st p hp hne
    show p ∈ (exState (if concIterFails o j = true then
      Except.error (concIterMsg o j, st)
      else concLoop o sh query cachefile tid (j + 1) rest
        (concIterStep sh query cachefile tid sz j st))).files
    by_cases hf : concIterFails o j = true
    · rw [if_pos hf]
      exact hp
    · rw [if_neg hf]
      exact ih (j + 1) _ p (concIterStep_pres sh query cachefile tid sz j st p hp hne) hne

theorem concCalcBody_pres (o : EngineRun) (ar : Bool) (cachefile : String)
    (sh : Option String) (query : List String) (tid : Option String) (st : CacheState)
    (p : String) (hp : p ∈ st.files) (hne : p ≠ cachefile ++ ".tmp") :
    p ∈ (exState (concCalcBody o ar cachefile sh query tid st)).files := by
  cases hA : o.acquireErr with
  | some m =>
    simp only [concCalcBody, hA, exState]
    exact hp
  | none =>
    by_cases har : ar = true
    · simp only [concCalcBody, hA, if_pos har, exState]
      exact hp
    · cases hC : o.computeErr with
      | some m =>
        simp only [concCalcBody, hA, hC, if_neg har, exState]
        exact hp
      | none =>
        have hp2 : p ∈ (saveFile (sleep st 1) cachefile).files := by
          unfold saveFile
          rw [← sleep_files st 1] at hp
          exact addFile_files_mono _ _ _ hp
        have hpres := concLoop_pres o sh query cachefile tid o.iterSizes 0
          (saveFile (sleep st 1) cachefile) p hp2 hne
        cases hL : concLoop o sh query cachefile tid 0 o.iterSizes
            (saveFile (sleep st 1) cachefile) with
        | error e =>
          obtain ⟨m, ste⟩ := e
          rw [hL] at hpres
          simp only [exState] at hpres
          simp only [concCalcBody, hA, hC, if_neg har, hL, exState]
          exact hpres
        | ok st3 =>
          rw [hL] at hpres
          simp only [exState] at hpres
          cases hF : o.finalErr with
          | some m =>
            simp only [concCalcBody, hA, hC, if_neg har, hL, hF, exState]
            exact hpres
          | none =>
            simp only [concCalcBody, hA, hC, if_neg har, hL, hF, exState,
              add_to_map, update_calc_status]
            exact renameFile_pres _ _ _ _ (addFile_files_mono _ _ _ hpres) hne

theorem get_calc_status_update_self (st : CacheState) (sh : Option String)
    (q : List String) (kw : List (String × PyVal)) :
    get_calc_status (update_calc_status st sh q kw) sh q =
      some ((match lookupEntry st.entries (sh, q) with
        | some s => s
        | none => newCalcStatus st.now).updOk kw st.now) := by
  unfold update_calc_status get_calc_status
  exact lookup_upsert_self _ _ _

theorem updOk_finished_error (s : CalcStatus) (m : String) (now : Int) :
    (s.updOk [("finished", PyVal.vbool true), ("error", PyVal.vexc m)] now).finished = true ∧
    (s.updOk [("finished", PyVal.vbool true), ("error", PyVal.vexc m)] now).error = some m :=
  ⟨rfl, rfl⟩

/-- C6 (amended): whenever the body of ConcCalculation.__call__ raises after
the cache mapping was obtained, the call still returns normally (the model
is a total function), the status for (subchash, query) ends up with
finished=True and error set to the raised exception, and the worker deletes
no pre-existing cache file (only its own temporary file is consumed by the
atomic rename).  If the exception occurs before the cache mapping is
assigned, no status is recorded at all — see the counterexample. -/
theorem concCalculation_error_recorded_after_acquire
    (o : EngineRun) (ar : Bool) (cf : String) (sh : Option String) (query : List String)
    (tid : Option String) (st : CacheState) (m : String) (st'' : CacheState)
    (hbody : concCalcBody o ar cf sh query tid st = .error (m, st''))
    (hacq : o.acquireErr = none) :
    (∃ s', get_calc_status (concCalculation o ar cf sh query tid st) sh query = some s' ∧
      s'.finished = true ∧ s'.error = some m) ∧
    (∀ p ∈ st.files, p ≠ cf ++ ".tmp" →
      p ∈ (concCalculation o ar cf sh query tid st).files) := by
  have hcc : concCalculation o ar cf sh query tid st =
      update_calc_status st'' sh query
        [("finished", PyVal.vbool true), ("error", PyVal.vexc m)] := by
    unfold concCalculation
    rw [hbody]
    show (if o.acquireErr = none then
        update_calc_status st'' sh query
          [("finished", PyVal.vbool true), ("error", PyVal.vexc m)]
      else st'') = _
    rw [if_pos hacq]
  constructor
  · refine ⟨(match lookupEntry st''.entries (sh, query) with
      | some s => s
      | none => newCalcStatus st''.now).updOk
        [("finished", PyVal.vbool true), ("error", PyVal.vexc m)] st''.now, ?_, ?_, ?_⟩
    · rw [hcc]
      exact get_calc_status_update_self st'' sh query _
    · exact (updOk_finished_error _ m st''.now).1
    · exact (updOk_finished_error _ m st''.now).2
  · intro p hp hne
    rw [hcc, update_calc_status_files]
    have hpres := concCalcBody_pres o ar cf sh query tid st p hp hne
    rw [hbody] at hpres
    simpa [exState] using hpres

def c6o : EngineRun :=
  { acquireErr := some "corpus open failed", computeErr := none, iterSizes := [],
    iterErr := none, finalErr := none,
    finalSizes := { finished := true, concsize := 1, fullsize := 1, relconcsize := 1 },
    arf := 0, isSubcorp := false, size := 1 }

def c6st : CacheState := { entries := [], sizes := [], files := [], now := 0 }

/-- C6 counterexample: when the exception is raised while acquiring the
corpus / cache mapping (before `cache_map` is assigned), the worker's except
clause skips the status update (`if cache_map is not None`), so although an
exception was raised during the invocation, no status with finished/error is
recorded for (subchash, query) — get_calc_status still returns null.  The
call does return normally. -/
theorem concCalculation_acquire_error_cex :
    concCalcBody c6o false "f.conc" none ["q,Z"] none c6st =
      .error ("corpus open failed", c6st) ∧
    concCalculation c6o false "f.conc" none ["q,Z"] none c6st = c6st ∧
    get_calc_status (concCalculation c6o false "f.conc" none ["q,Z"] none c6st)
      none ["q,Z"] = none :=
  ⟨rfl, rfl, rfl⟩

def c6wo : EngineRun :=
  { acquireErr := none, computeErr := some "engine blew up", iterSizes := [],
    iterErr := none, finalErr := none,
    finalSizes := { finished := true, concsize := 1, fullsize := 1, relconcsize := 1 },
    arf := 0, isSubcorp := false, size := 1 }

def c6wst : CacheState := { entries := [], sizes := [], files := ["keepme"], now := 5 }

/-- C6 witness: the amended theorem applied to a concrete run whose
compute_conc stage raises after the cache mapping was obtained. -/
theorem concCalculation_error_recorded_after_acquire_witness :
    (∃ s', get_calc_status (concCalculation c6wo false "cf.conc" none ["q,C"] none c6wst)
        none ["q,C"] = some s' ∧ s'.finished = true ∧ s'.error = some "engine blew up") ∧
    (∀ p ∈ c6wst.files, p ≠ "cf.conc" ++ ".tmp" →
      p ∈ (concCalculation c6wo false "cf.conc" none ["q,C"] none c6wst).files) :=
  concCalculation_error_recorded_after_acquire c6wo false "cf.conc" none ["q,C"] none
    c6wst "engine blew up" c6wst rfl rfl

/-! ### Synchronous sub-calculation worker (ConcSyncCalculation) -/

/-- Python's `range(a, b)`. -/
def pyRange (a b : Nat) : List Nat := (List.range (b - a)).map (a + ·)

theorem pyRange_cons (a b : Nat) (h : a < b) : pyRange a b = a :: pyRange (a + 1) b := by
  unfold pyRange
  obtain ⟨d, hd⟩ : ∃ d, b - a = d + 1 := ⟨b - a - 1, by omega⟩
  have hd2 : b - (a + 1) = d := by omega
  rw [hd, hd2, List.range_succ_eq_map]
  simp only [List.map_cons, Nat.add_zero, List.map_map]
  have hf : ((fun x => a + x) ∘ Nat.succ) = (fun x => a + 1 + x) := by
    funext x
    simp only [Function.comp_apply]
    omega
  rw [hf]

theorem mem_pyRange (a b i : Nat) : i ∈ pyRange a b ↔ a ≤ i ∧ i < b := by
  unfold pyRange
  simp only [List.mem_map, List.mem_range]
  constructor
  · rintro ⟨x, hx, rfl⟩
    omega
  · rintro ⟨h1, h2⟩
    exact ⟨i - a, by omega, by omega⟩

/-- Oracle for the external engine during one ConcSyncCalculation run: a
possible failure in the first phase (find base / compute / sync / save of
the first operation), a possible failure of exec_command at each step index,
and the sizes the engine reports. -/
structure SyncEngine where
  phase1Err : Option String
  execErr : Nat → Option String
  sizeAt : Nat → Int
  firstSize : Int

/-- The body of _mark_calc_states_err: one status update per index of the
range, each setting `error` and `finished=True` on the prefix of that
length. -/
def markErrLoop (sh : Option String) (query : List String) (err : String) :
    List Nat → CacheState → CacheState
  | [], st => st
  | i :: rest, st =>
    markErrLoop sh query err rest
      (update_calc_status st sh (query.take (i + 1))
        [("error", PyVal.vexc err), ("finished", PyVal.vbool true)])

/-- ConcSyncCalculation._mark_calc_states_err: mark every prefix from
`from_idx` to the end of the query as failed with `err`. -/
def mark_calc_states_err (st : CacheState) (sh : Option String) (query : List String)
    (from_idx : Nat) (err : String) : CacheState :=
  markErrLoop sh query err (pyRange from_idx query.length) st

theorem updOk_error_finished (s : CalcStatus) (err : String) (now : Int) :
    (s.updOk [("error", PyVal.vexc err), ("finished", PyVal.vbool true)] now).finished = true ∧
    (s.updOk [("error", PyVal.vexc err), ("finished", PyVal.vbool true)] now).error =
      some err :=
  ⟨rfl, rfl⟩

theorem markErrLoop_lookup_other (sh : Option String) (query : List String) (err : String) :
    ∀ (acts : List Nat) (st : CacheState) (k' : CKey),
      (∀ i ∈ acts, ((sh, query.take (i + 1)) : CKey) ≠ k') →
      lookupEntry (markErrLoop sh query err acts st).entries k' = lookupEntry st.entries k' := by
  intro acts
  induction acts with
  | nil => intro st k' _; rfl
  | cons i rest ih =>
    intro st k' hk
    show lookupEntry (markErrLoop sh query err rest _).entries k' = _
    rw [ih _ k' (fun a ha => hk a (List.mem_cons_of_mem _ ha))]
    unfold update_calc_status
    exact lookup_upsert_other _ _ _ _
      (fun hcc => hk i (List.mem_cons_self _ _) hcc.symm)

theorem take_len_of_le (query : List String) (j : Nat) (h : j + 1 ≤ query.length) :
    (query.take (j + 1)).length = j + 1 := by
  rw [List.length_take]
  omega

theorem take_key_ne (sh : Option String) (query : List String) (i j : Nat)
    (hi : i + 1 ≤ query.length) (hj : j + 1 ≤ query.length) (hne : j ≠ i) :
    ((sh, query.take (j + 1)) : CKey) ≠ (sh, query.take (i + 1)) := by
  intro hc
  apply hne
  have h2 : query.take (j + 1) = query.take (i + 1) := congrArg Prod.snd hc
  have h3 := congrArg List.length h2
  rw [take_len_of_le query j hj, take_len_of_le query i hi] at h3
  omega

theorem markErrLoop_status (sh : Option String) (query : List String) (err : String) :
    ∀ d (a : Nat) (st : CacheState) (i : Nat), query.length - a = d → a ≤ i →
      i < query.length →
      ∃ s', get_calc_status (markErrLoop sh query err (pyRange a query.length) st) sh
          (query.take (i + 1)) = some s' ∧ s'.finished = true ∧ s'.error = some err := by
  intro d
  induction d with
  | zero =>
    intro a st i hd hai hi
    omega
  | succ d ih =>
    intro a st i hd hai hi
    have ha : a < query.length := by omega
    rw [pyRange_cons a query.length ha]
    show ∃ s', get_calc_status (markErrLoop sh query err (pyRange (a + 1) query.length)
      (update_calc_status st sh (query.take (a + 1))
        [("error", PyVal.vexc err), ("finished", PyVal.vbool true)])) sh
        (query.take (i + 1)) = some s' ∧ _ ∧ _
    by_cases hia : i = a
    · subst hia
      have hother : ∀ j ∈ pyRange (i + 1) query.length,
          ((sh, query.take (j + 1)) : CKey) ≠ (sh, query.take (i + 1)) := by
        intro j hj
        have hj2 := (mem_pyRange _ _ _).1 hj
        exact take_key_ne sh query i j (by omega) (by omega) (by omega)
      refine ⟨(match lookupEntry st.entries (sh, query.take (i + 1)) with
        | some s => s
        | none => newCalcStatus st.now).updOk
          [("error", PyVal.vexc err), ("finished", PyVal.vbool true)] st.now,
        ?_, (updOk_error_finished _ err _).1, (updOk_error_finished _ err _).2⟩
      unfold get_calc_status
      rw [markErrLoop_lookup_other sh query err _ _ _ hother]
      exact get_calc_status_update_self st sh (query.take (i + 1)) _
    · exact ih (a + 1) _ i (by omega) (by omega) hi

/-- One pass of ConcSyncCalculation.__call__'s per-operation loop: take the
operation's command (its first character; an empty operation string raises
an IndexError), execute it (the oracle decides whether exec_command raises),
raise NotImplementedError for the volatile command codes 'g', 'a', 'e',
then save the concordance to the prefix's cache file (saving to a missing
path raises) and mark the prefix finished with its size.  Any raise marks
every prefix from the current step onward as failed and stops the loop. -/
def syncLoop (o : SyncEngine) (sh : Option String) (query : List String) :
    List Nat → CacheState → CacheState
  | [], st => st
  | act :: rest, st =>
    let qact := query.getD act ""
    if qact = "" then
      mark_calc_states_err st sh query act "string index out of range"
    else
      match o.execErr act with
      | some m => mark_calc_states_err st sh query act m
      | none =>
        if qact.take 1 = "g" ∨ qact.take 1 = "a" ∨ qact.take 1 = "e" then
          mark_calc_states_err st sh query act
            ("Cannot run command " ++ qact.take 1 ++ " in background")
        else
          match cache_file_path st sh (query.take (act + 1)) with
          | none =>
            mark_calc_states_err st sh query act "cannot save to a missing cache path"
          | some cf =>
            let st1 := saveFile st cf
            let st2 := update_calc_status st1 sh (query.take (act + 1))
              [("finished", PyVal.vbool true), ("concsize", PyVal.vint (o.sizeAt act))]
            syncLoop o sh query rest st2

/-- ConcSyncCalculation.__call__: resolve the best cached base (minsize 0);
if only the empty sentinel was found, compute the first operation fully
synchronously, save it as the `q[:1]` entry, mark it finished with its
size, and advance the start index; any first-phase raise marks everything
from index 0 and returns.  Then run the per-operation loop from the start
index to the end of the query. -/
def concSyncCalculation (o : SyncEngine) (corp : Corpus) (sh : Option String)
    (query : List String) (st : CacheState) : CacheState :=
  let r := find_cached_conc_base corp sh query 0 st
  match r.1.2 with
  | .empty _ =>
    match o.phase1Err with
    | some m => mark_calc_states_err r.2 sh query 0 m
    | none =>
      match cache_file_path r.2 sh (query.take 1) with
      | none => mark_calc_states_err r.2 sh query 0 "cannot save to a missing cache path"
      | some cf =>
        let st2 := saveFile r.2 cf
        let st3 := update_calc_status st2 sh (query.take 1)
          [("finished", PyVal.vbool true), ("concsize", PyVal.vint o.firstSize)]
        syncLoop o sh query (pyRange (r.1.1 + 1) query.length) st3
  | .pyconc _ _ _ => syncLoop o sh query (pyRange r.1.1 query.length) r.2

theorem saveFile_entries (st : CacheState) (p : String) :
    (saveFile st p).entries = st.entries := by
  unfold saveFile addFile
  by_cases hm : p ∈ st.files
  · rw [if_pos hm]
  · rw [if_neg hm]

theorem entry_persists_update (st : CacheState) (sh : Option String) (q : List String)
    (kw : List (String × PyVal)) (k' : CKey) (h : lookupEntry st.entries k' ≠ none) :
    lookupEntry (update_calc_status st sh q kw).entries k' ≠ none := by
  unfold update_calc_status
  by_cases hk : k' = ((sh, q) : CKey)
  · subst hk
    rw [lookup_upsert_self]
    simp
  · rw [lookup_upsert_other _ _ _ _ hk]
    exact h

/-- C7: if executing the operation at step index k of the synchronous
worker's loop raises (exec_command fails there, every earlier step having
succeeded), then every prefix q[:i+1] for i from k to len(q)-1 ends up with
finished=True and error set to that exception, and no further steps run
(the marked statuses are what the final state holds). -/
theorem syncLoop_step_error_marks_rest (o : SyncEngine) (sh : Option String)
    (query : List String) (m : String) (k : Nat)
    (hk : k < query.length) (hqk : query.getD k "" ≠ "") (hek : o.execErr k = some m) :
    ∀ d calc_from (st : CacheState), k - calc_from = d → calc_from ≤ k →
      (∀ j, calc_from ≤ j → j < k →
        o.execErr j = none ∧ query.getD j "" ≠ "" ∧
        ¬ ((query.getD j "").take 1 = "g" ∨ (query.getD j "").take 1 = "a" ∨
           (query.getD j "").take 1 = "e") ∧
        lookupEntry st.entries ((sh, query.take (j + 1)) : CKey) ≠ none) →
      ∀ i, k ≤ i → i < query.length →
        ∃ s', get_calc_status (syncLoop o sh query (pyRange calc_from query.length) st) sh
            (query.take (i + 1)) = some s' ∧ s'.finished = true ∧ s'.error = some m := by
  intro d
  induction d with
  | zero =>
    intro calc_from st hd hck hok i hki hi
    have hcf : calc_from = k := by omega
    subst hcf
    rw [pyRange_cons calc_from query.length hk]
    simp only [syncLoop]
    rw [if_neg hqk]
    simp only [hek]
    exact markErrLoop_status sh query m (query.length - calc_from) calc_from st i rfl hki hi
  | succ d ih =>
    intro calc_from st hd hck hok i hki hi
    have hcfk : calc_from < k := by omega
    obtain ⟨hej, hqj, hgae, hent⟩ := hok calc_from (le_refl _) hcfk
    have hcfp : cache_file_path st sh (query.take (calc_from + 1)) =
        some (cachePathOf sh (query.take (calc_from + 1))) := by
      unfold cache_file_path
      cases hl : lookupEntry st.entries ((sh, query.take (calc_from + 1)) : CKey) with
      | none => exact absurd hl hent
      | some s => rfl
    rw [pyRange_cons calc_from query.length (by omega)]
    simp only [syncLoop]
    rw [if_neg hqj]
    simp only [hej]
    rw [if_neg hgae]
    simp only [hcfp]
    apply ih (calc_from + 1) _ (by omega) (by omega) _ i hki hi
    intro j hj1 hj2
    obtain ⟨h1, h2, h3, h4⟩ := hok j (by omega) hj2
    refine ⟨h1, h2, h3, ?_⟩
    apply entry_persists_update
    rw [saveFile_entries]
    exact h4

def c7o : SyncEngine :=
  { phase1Err := none, execErr := fun j => if j = 1 then some "boom" else none,
    sizeAt := fun _ => 1, firstSize := 1 }

def c7st : CacheState :=
  { entries := [((none, ["q,D"]), { finished := true, concsize := some 3 })],
    sizes := [], files := [], now := 0 }

/-- C7 witness: the step-failure theorem applied to a concrete two-operation
query whose second operation's exec_command raises. -/
theorem syncLoop_step_error_marks_rest_witness :
    ∃ s', get_calc_status
        (syncLoop c7o none ["q,D", "f"] (pyRange 1 (["q,D", "f"].length)) c7st) none
        (["q,D", "f"].take (1 + 1)) = some s' ∧
      s'.finished = true ∧ s'.error = some "boom" :=
  syncLoop_step_error_marks_rest c7o none ["q,D", "f"] "boom" 1 (by decide) (by decide)
    rfl 0 1 c7st rfl (le_refl 1)
    (fun _ h1 h2 => absurd (Nat.lt_of_le_of_lt h1 h2) (Nat.lt_irrefl 1))
    1 (le_refl 1) (by decide)
